import Mathlib

/-!
# DragDropContext: the store subscriber and its collaborators

A shallow embedding of `src/view/drag-drop-context/drag-drop-context.jsx`.

The component owns a store, a style marshal and a dimension marshal.  On mount it
subscribes one listener to the store; the listener compares the phase of the
store's current state with the phase of the state it recorded last time and, when
the phase differs, calls `fireHooks`, `styleMarshal.onPhaseChange` and
`dimensionMarshal.onPhaseChange`, in that order.

JavaScript mutation is modelled by explicit state passing over `World`.  A thrown
exception leaves every mutation made so far in place, so every operation returns a
`Result`: the world reached together with how control left the operation.
Collaborators are outside the sources; they are parameters (`Env`).  A collaborator
may dispatch further actions on the store before it returns (the comment in the
listener says so), which re-enters the listener; the nesting depth is bounded by a
fuel argument.
-/

namespace DragDropContext

/-! ## Data model -/

/-- Modelled from the spec: the `phase` tag of a `State` (`types.js` is not among the
sources).  The names are the states of the phase state machine of section 4.3.  The
listener only ever compares two phases with `===`. -/
inductive Phase
  | IDLE
  | COLLECTING
  | DRAGGING
  | DROP_ANIMATING
  | DROP_COMPLETE
  | CANCELED
  deriving DecidableEq, Repr

/-- A store state snapshot: `phase`, and `rest` standing for every other field. -/
structure State where
  phase : Phase
  rest : Nat
  deriving DecidableEq, Repr

/-- The identity of a callback function value held in the props. -/
abbrev HookFn := Nat

/-- The `Hooks` object: `onDragStart` is optional, `onDragEnd` too in this model. -/
structure Hooks where
  onDragStart : Option HookFn
  onDragEnd : Option HookFn
  deriving DecidableEq, Repr

abbrev DraggableId := Nat

abbrev DroppableId := Nat

/-- A 2D offset. -/
structure Position where
  x : Int
  y : Int
  deriving DecidableEq, Repr

/-- Modelled from the spec: the identity part of a `DraggableDimension` (section 3);
the listener and the callbacks only pass these values through. -/
structure DraggableDimension where
  draggableId : DraggableId
  droppableId : DroppableId
  deriving DecidableEq, Repr

/-- Modelled from the spec: the identity part of a `DroppableDimension` (section 3). -/
structure DroppableDimension where
  droppableId : DroppableId
  isEnabled : Bool
  deriving DecidableEq, Repr

/-- The action objects built by the action creators of `state/action-creators`.  Each
constructor stands for the action its creator returns on the given arguments;
`other` stands for the actions of the creators this file does not import. -/
inductive Action
  | clean
  | publishDraggableDimensions (dimensions : List DraggableDimension)
  | publishDroppableDimensions (dimensions : List DroppableDimension)
  | updateDroppableDimensionScroll (id : DroppableId) (offset : Position)
  | other (tag : Nat)
  deriving DecidableEq, Repr

/-- A call made on a collaborator, with the arguments it received. -/
inductive Event
  | fireHooks (hooks : Hooks) (current : State) (previous : State)
  | styleOnPhaseChange (previous : State) (current : State)
  | dimensionOnPhaseChange (current : State)
  | styleUnmount
  deriving DecidableEq, Repr

/-- Modelled from the spec: the store made by `createStore` (`state/create-store` is not
among the sources).  Section 6: a collaborator may subscribe to receive the state on
every committed transition and must be able to unsubscribe.  `listeners` are the
handles of the current subscriptions, in subscription order. -/
structure Store where
  state : State
  listeners : List Nat
  nextListener : Nat
  deriving DecidableEq, Repr

/-- The mutable state of a mounted component.
* `store` is `this.store`, `unsubscribe` the handle behind `this.unsubscribe`;
* `previous` is the `let previous` captured by the listener;
* `props` is `this.props` (only the hooks matter);
* `trace` logs the calls made on the collaborators, oldest first;
* `compared` is a history variable: one entry `(previousValue, current)` for every
  run of the listener, oldest first. -/
structure World where
  store : Store
  unsubscribe : Nat
  previous : State
  props : Hooks
  trace : List Event
  compared : List (State × State)
  deriving DecidableEq, Repr

/-- How control leaves an operation: a normal return, a thrown exception, or the
nesting bound of the model reached. -/
inductive Status
  | done
  | fault
  | outOfFuel
  deriving DecidableEq, Repr

structure Result where
  world : World
  status : Status
  deriving DecidableEq, Repr

/-- What a collaborator does when called: it dispatches `dispatches` on the store, in
order and synchronously, and then returns, or throws when `throws` is set. -/
structure Reaction where
  dispatches : List Action
  throws : Bool
  deriving DecidableEq, Repr

/-- One use of the `DimensionMarshalCallbacks` object by the dimension marshal. -/
inductive CallbackCall
  | cancel
  | publishDraggables (dimensions : List DraggableDimension)
  | publishDroppables (dimensions : List DroppableDimension)
  | updateDroppableScroll (id : DroppableId) (offset : Position)
  deriving DecidableEq, Repr

/-- What the dimension marshal does when called.  It was created with the callbacks
object only, so it reaches the store through `calls`, made in order and
synchronously; then it returns, or throws when `throws` is set. -/
structure MarshalReaction where
  calls : List CallbackCall
  throws : Bool
  deriving DecidableEq, Repr

/-- The parts of the program outside the sources: the reducer of the store and the
three collaborators called by the listener. -/
structure Env where
  reducer : State → Action → State
  fireHooks : Hooks → State → State → Reaction
  styleOnPhaseChange : State → State → Reaction
  dimensionOnPhaseChange : State → MarshalReaction

/-! ## Control -/

/-- Sequencing of statements: the continuation runs only after a normal return. -/
def Result.andThen (r : Result) (k : World → Result) : Result :=
  match r.status with
  | Status.done => k r.world
  | _ => r

/-- A `for` loop over `xs`; an exception in the body leaves the loop. -/
def forEach {α : Type} (body : α → World → Result) : List α → World → Result
  | [], w => ⟨w, Status.done⟩
  | x :: xs, w => (body x w).andThen (forEach body xs)

/-! ## The store -/

/-- Modelled from the spec: `createStore()`; the initial state is a parameter. -/
def createStore (init : State) : Store :=
  { state := init, listeners := [], nextListener := 0 }

/-- Modelled from the spec: `store.subscribe(listener)`; returns the store with the new
subscription and the handle that `unsubscribe` removes. -/
def Store.subscribe (s : Store) : Store × Nat :=
  ({ s with listeners := s.listeners ++ [s.nextListener], nextListener := s.nextListener + 1 },
    s.nextListener)

/-- Modelled from the spec: the function returned by `store.subscribe`. -/
def Store.unsubscribe (s : Store) (handle : Nat) : Store :=
  { s with listeners := s.listeners.erase handle }

/-- Modelled from the spec: the store commits the state `s` and then notifies every
subscribed listener, synchronously and in subscription order.  The component's
listener is the only listener in the model; `notify` runs it. -/
def commitWith (notify : World → Result) (s : State) (w : World) : Result :=
  let w1 : World := { w with store := { w.store with state := s } }
  forEach (fun _ => notify) w1.store.listeners w1

/-- Modelled from the spec: `store.dispatch(action)`: a synchronous application of the
reducer, committed and then notified. -/
def dispatchWith (reducer : State → Action → State) (notify : World → Result)
    (a : Action) (w : World) : Result :=
  commitWith notify (reducer w.store.state a) w

/-! ## The component -/

/-- The `DimensionMarshalCallbacks` object. -/
structure Callbacks where
  cancel : World → Result
  publishDraggables : List DraggableDimension → World → Result
  publishDroppables : List DroppableDimension → World → Result
  updateDroppableScroll : DroppableId → Position → World → Result

/-- The `callbacks` object built in `componentWillMount` (lines 74-87); `storeDispatch`
is `this.store.dispatch`. -/
def callbacks (storeDispatch : Action → World → Result) : Callbacks :=
  { cancel := fun w => storeDispatch Action.clean w
    publishDraggables := fun dimensions w =>
      storeDispatch (Action.publishDraggableDimensions dimensions) w
    publishDroppables := fun dimensions w =>
      storeDispatch (Action.publishDroppableDimensions dimensions) w
    updateDroppableScroll := fun id offset w =>
      storeDispatch (Action.updateDroppableDimensionScroll id offset) w }

/-- The dimension marshal uses one of the callbacks it was given. -/
def Callbacks.run (cb : Callbacks) : CallbackCall → World → Result
  | CallbackCall.cancel => cb.cancel
  | CallbackCall.publishDraggables dimensions => cb.publishDraggables dimensions
  | CallbackCall.publishDroppables dimensions => cb.publishDroppables dimensions
  | CallbackCall.updateDroppableScroll id offset => cb.updateDroppableScroll id offset

/-- A call on a collaborator: the call is logged, the collaborator performs what it
has to do on the store (each item re-enters the listener) and returns or throws.
An exception that reaches the collaborator from a nested notification is not caught
by it: it ends the call. -/
def call {α : Type} (perform : α → World → Result) (ev : Event) (todo : List α)
    (throws : Bool) (w : World) : Result :=
  (forEach perform todo { w with trace := w.trace ++ [ev] }).andThen
    (fun w1 => ⟨w1, if throws then Status.fault else Status.done⟩)

/-- The listener passed to `this.store.subscribe` in `componentWillMount`
(lines 92-117).  The first argument bounds the depth of re-entrant runs. -/
def listener (env : Env) : Nat → World → Result
  | 0, w => ⟨w, Status.outOfFuel⟩
  | fuel + 1, w =>
    let previousValue : State := w.previous
    let current : State := w.store.state
    -- setting previous now incase any of the functions synchronously trigger more updates
    let w1 : World :=
      { w with previous := current, compared := w.compared ++ [(previousValue, current)] }
    -- no lifecycle changes have occurred if phase has not changed
    if current.phase = previousValue.phase then
      ⟨w1, Status.done⟩
    else
      -- Allowing dynamic hooks by re-capturing the hook functions
      let hooks : Hooks :=
        { onDragStart := w1.props.onDragStart, onDragEnd := w1.props.onDragEnd }
      (call (dispatchWith env.reducer (listener env fuel))
          (Event.fireHooks hooks current previousValue)
          (env.fireHooks hooks current previousValue).dispatches
          (env.fireHooks hooks current previousValue).throws w1).andThen fun w2 =>
      -- Update the global styles
      (call (dispatchWith env.reducer (listener env fuel))
          (Event.styleOnPhaseChange previousValue current)
          (env.styleOnPhaseChange previousValue current).dispatches
          (env.styleOnPhaseChange previousValue current).throws w2).andThen fun w3 =>
      -- inform the dimension marshal about updates
      -- this can trigger more actions synchronously so we are placing it last
      call (callbacks (dispatchWith env.reducer (listener env fuel))).run
          (Event.dimensionOnPhaseChange current)
          (env.dimensionOnPhaseChange current).calls
          (env.dimensionOnPhaseChange current).throws w3

/-- The store commits `s` while the component is mounted in `w`. -/
def commit (env : Env) (fuel : Nat) (s : State) (w : World) : Result :=
  commitWith (listener env fuel) s w

/-- The call `this.store.dispatch(a)`. -/
def dispatch (env : Env) (fuel : Nat) (a : Action) (w : World) : Result :=
  dispatchWith env.reducer (listener env fuel) a w

/-- The method `componentWillMount` (lines 67-118): the store is created, `previous` is
its state, and the listener is subscribed. -/
def componentWillMount (init : State) (props : Hooks) : World :=
  let store := createStore init
  let previous := store.state
  let sub := store.subscribe
  { store := sub.1, unsubscribe := sub.2, previous := previous, props := props,
    trace := [], compared := [] }

/-- The method `componentWillUnmount` (lines 120-123). -/
def componentWillUnmount (w : World) : World :=
  { w with
    store := w.store.unsubscribe w.unsubscribe
    trace := w.trace ++ [Event.styleUnmount] }

/-- The parent renders the component again with new props. -/
def setProps (props : Hooks) (w : World) : World :=
  { w with props := props }

/-- The store commits the states `ss` one after the other, each from the top level:
an exception raised by one notification reaches the caller of that commit and does
not stop the later ones. -/
def commitAll (env : Env) (fuel : Nat) : List State → World → World
  | [], w => w
  | s :: ss, w => commitAll env fuel ss (commit env fuel s w).world

/-- The actions `as` are dispatched one after the other, each from the top level. -/
def dispatchAll (env : Env) (fuel : Nat) : List Action → World → World
  | [], w => w
  | a :: as, w => dispatchAll env fuel as (dispatch env fuel a w).world

/-! ## The three calls of a notification -/

/-- The call of `fireHooks` made by a run of the listener on `w` that found the phase
changed (lines 105-109), with everything the hooks do before the call ends; it is
made in the world in which `previous` already holds the current state. -/
def hooksCall (env : Env) (fuel : Nat) (w : World) : Result :=
  call (dispatchWith env.reducer (listener env fuel))
    (Event.fireHooks w.props w.store.state w.previous)
    (env.fireHooks w.props w.store.state w.previous).dispatches
    (env.fireHooks w.props w.store.state w.previous).throws
    { w with previous := w.store.state,
             compared := w.compared ++ [(w.previous, w.store.state)] }

/-- The call of `styleMarshal.onPhaseChange` of the same run (line 112), made in the
world the call of `fireHooks` left. -/
def styleCall (env : Env) (fuel : Nat) (w : World) : Result :=
  call (dispatchWith env.reducer (listener env fuel))
    (Event.styleOnPhaseChange w.previous w.store.state)
    (env.styleOnPhaseChange w.previous w.store.state).dispatches
    (env.styleOnPhaseChange w.previous w.store.state).throws
    (hooksCall env fuel w).world

/-- The call of `dimensionMarshal.onPhaseChange` of the same run (line 116), made in
the world the call of the style marshal left. -/
def marshalCall (env : Env) (fuel : Nat) (w : World) : Result :=
  call (callbacks (dispatchWith env.reducer (listener env fuel))).run
    (Event.dimensionOnPhaseChange w.store.state)
    (env.dimensionOnPhaseChange w.store.state).calls
    (env.dimensionOnPhaseChange w.store.state).throws
    (styleCall env fuel w).world

/-! ## Elementary mutations -/

/-- The world after the call `ev` has been logged. -/
def World.logged (w : World) (ev : Event) : World :=
  { w with trace := w.trace ++ [ev] }

/-- The world after the first three statements of the listener: `previous` holds the
current state of the store. -/
def World.recorded (w : World) : World :=
  { w with previous := w.store.state,
           compared := w.compared ++ [(w.previous, w.store.state)] }

/-- The world after the store has committed the state `s`, before any listener runs. -/
def World.committed (w : World) (s : State) : World :=
  { w with store := { w.store with state := s } }

/-! ## Observations on traces -/

/-- The arguments `(hooks, current, previous)` of every `fireHooks` call of a trace,
oldest first. -/
def hookArgs : List Event → List (Hooks × State × State)
  | [] => []
  | Event.fireHooks h c p :: rest => (h, c, p) :: hookArgs rest
  | _ :: rest => hookArgs rest

/-- The pairs `(current, previous)` of every `fireHooks` call of a trace. -/
def hookCalls (t : List Event) : List (State × State) :=
  (hookArgs t).map fun x => (x.2.1, x.2.2)

/-- The phase transitions of the state sequence `p, s1, s2, ...`: one pair
`(si, s(i-1))` for every `i` whose phase differs from the phase before it. -/
def phaseChanges : State → List State → List (State × State)
  | _, [] => []
  | p, c :: rest =>
    if c.phase = p.phase then phaseChanges c rest else (c, p) :: phaseChanges c rest

/-- The collaborator calls of a run whose notifications compared the pairs
`(previous, current)` of the list, when every transition is notified to the end
before the next one starts: `fireHooks`, then the style marshal, then the dimension
marshal, stopping at the first of them that throws. -/
def expectedCalls (env : Env) (props : Hooks) : List (State × State) → List Event
  | [] => []
  | (p, c) :: rest =>
    if c.phase = p.phase then expectedCalls env props rest
    else if (env.fireHooks props c p).throws then
      Event.fireHooks props c p :: expectedCalls env props rest
    else if (env.styleOnPhaseChange p c).throws then
      Event.fireHooks props c p :: Event.styleOnPhaseChange p c ::
        expectedCalls env props rest
    else
      Event.fireHooks props c p :: Event.styleOnPhaseChange p c ::
        Event.dimensionOnPhaseChange c :: expectedCalls env props rest

/-- No collaborator dispatches on the store while it is being notified: every
notification comes from the top level. -/
def Env.Quiet (env : Env) : Prop :=
  (∀ h c p, (env.fireHooks h c p).dispatches = []) ∧
    (∀ p c, (env.styleOnPhaseChange p c).dispatches = []) ∧
    ∀ c, (env.dimensionOnPhaseChange c).calls = []

/-- Only the dimension marshal dispatches on the store while it is being notified. -/
def Env.OnlyMarshalDispatches (env : Env) : Prop :=
  (∀ h c p, (env.fireHooks h c p).dispatches = []) ∧
    ∀ p c, (env.styleOnPhaseChange p c).dispatches = []

/-- Follows a history of comparisons from the state `s`: every entry must compare
against the state delivered by the entry before it (`s` for the first one); the
answer is the state delivered last. -/
def chainEnd : State → List (State × State) → Option State
  | s, [] => some s
  | s, (p, c) :: rest => if p = s then chainEnd c rest else none

/-- The reading of "hooks fire after the style update": every `fireHooks` call for a
transition finds the style marshal's call for that transition among the calls
`seen` before it. -/
def styleAppliedBeforeHooks : List Event → List Event → Bool
  | _, [] => true
  | seen, Event.fireHooks h c p :: rest =>
    seen.contains (Event.styleOnPhaseChange p c) &&
      styleAppliedBeforeHooks (seen ++ [Event.fireHooks h c p]) rest
  | seen, e :: rest => styleAppliedBeforeHooks (seen ++ [e]) rest

/-! ## Relations between the world before and after a run -/

/-- A relation between the world before and the world after, closed under doing
nothing and under sequencing, and kept when the store commits a state. -/
structure StepRel (R : World → World → Prop) : Prop where
  refl : ∀ w, R w w
  trans : ∀ a b c, R a b → R b c → R a c
  committed : ∀ (w : World) (s : State), R w (w.committed s)

/-- A step relation that is also kept when a call is logged and when the listener
records the current state. -/
structure MutationRel (R : World → World → Prop) extends StepRel R : Prop where
  logged : ∀ (w : World) (ev : Event), R w (w.logged ev)
  recorded : ∀ w : World, R w w.recorded

/-- Nothing in a run touches the props, the subscriptions or the handle. -/
def Frame (w v : World) : Prop :=
  v.props = w.props ∧ v.store.listeners = w.store.listeners ∧
    v.store.nextListener = w.store.nextListener ∧ v.unsubscribe = w.unsubscribe

/-- The trace only grows. -/
def TraceGrows (w v : World) : Prop := ∃ rest, v.trace = w.trace ++ rest

/-- The history of comparisons only grows, and what is added follows on from the
recorded previous state and ends in the new recorded previous state. -/
def Chained (w v : World) : Prop :=
  ∃ rest, v.compared = w.compared ++ rest ∧ chainEnd w.previous rest = some v.previous

/-- The props are kept and the calls added to the trace are the calls expected for the
comparisons added to the history. -/
def Grouped (env : Env) (w v : World) : Prop :=
  v.props = w.props ∧
    ∃ added, v.compared = w.compared ++ added ∧
      v.trace = w.trace ++ expectedCalls env w.props added

/-! ## A concrete environment -/

def idle : State := ⟨Phase.IDLE, 0⟩

def collecting : State := ⟨Phase.COLLECTING, 1⟩

def dragging : State := ⟨Phase.DRAGGING, 2⟩

def draggingMoved : State := ⟨Phase.DRAGGING, 3⟩

def mountHooks : Hooks := ⟨some 1, some 2⟩

def laterHooks : Hooks := ⟨some 3, none⟩

/-- A reducer for the examples: `other 1` lifts, publishing draggables starts the
drag, `other 2` moves, `clean` returns to idle. -/
def demoReducer (s : State) : Action → State
  | Action.other 1 => collecting
  | Action.publishDraggableDimensions _ => dragging
  | Action.other 2 => if s.phase = Phase.DRAGGING then draggingMoved else s
  | Action.clean => idle
  | _ => s

/-- Collaborators that return normally; the dimension marshal publishes the
draggables as soon as it is told that collection started. -/
def demoEnv : Env :=
  { reducer := demoReducer
    fireHooks := fun _ _ _ => ⟨[], false⟩
    styleOnPhaseChange := fun _ _ => ⟨[], false⟩
    dimensionOnPhaseChange := fun c =>
      if c.phase = Phase.COLLECTING then ⟨[CallbackCall.publishDraggables []], false⟩
      else ⟨[], false⟩ }

/-- Collaborators that never dispatch. -/
def quietEnv : Env :=
  { reducer := demoReducer
    fireHooks := fun _ _ _ => ⟨[], false⟩
    styleOnPhaseChange := fun _ _ => ⟨[], false⟩
    dimensionOnPhaseChange := fun _ => ⟨[], false⟩ }

/-- As `quietEnv`, with a user hook that throws inside `fireHooks`. -/
def faultyEnv : Env :=
  { reducer := demoReducer
    fireHooks := fun _ _ _ => ⟨[], true⟩
    styleOnPhaseChange := fun _ _ => ⟨[], false⟩
    dimensionOnPhaseChange := fun _ => ⟨[], false⟩ }

/-- As `quietEnv`, with a user hook that, when a collection starts, dispatches `clean`
on the store and then throws. -/
def hookDispatchesEnv : Env :=
  { reducer := demoReducer
    fireHooks := fun _ c _ =>
      if c.phase = Phase.COLLECTING then ⟨[Action.clean], true⟩ else ⟨[], false⟩
    styleOnPhaseChange := fun _ _ => ⟨[], false⟩
    dimensionOnPhaseChange := fun _ => ⟨[], false⟩ }

/-! ## Basic facts -/

theorem andThen_done (w : World) (k : World → Result) :
    (Result.mk w Status.done).andThen k = k w := rfl

theorem andThen_fault (w : World) (k : World → Result) :
    (Result.mk w Status.fault).andThen k = ⟨w, Status.fault⟩ := rfl

theorem andThen_outOfFuel (w : World) (k : World → Result) :
    (Result.mk w Status.outOfFuel).andThen k = ⟨w, Status.outOfFuel⟩ := rfl

theorem andThen_cases (r : Result) (k : World → Result) :
    (r.status = Status.done ∧ r.andThen k = k r.world) ∨
      (r.status ≠ Status.done ∧ r.andThen k = r) := by
  obtain ⟨w, st⟩ := r
  cases st
  · exact Or.inl ⟨rfl, rfl⟩
  · exact Or.inr ⟨by simp, rfl⟩
  · exact Or.inr ⟨by simp, rfl⟩

theorem listener_succ (env : Env) (fuel : Nat) (w : World) :
    listener env (fuel + 1) w =
      if w.store.state.phase = w.previous.phase then
        ⟨w.recorded, Status.done⟩
      else
        (call (dispatchWith env.reducer (listener env fuel))
            (Event.fireHooks w.props w.store.state w.previous)
            (env.fireHooks w.props w.store.state w.previous).dispatches
            (env.fireHooks w.props w.store.state w.previous).throws w.recorded).andThen
        fun w2 =>
        (call (dispatchWith env.reducer (listener env fuel))
            (Event.styleOnPhaseChange w.previous w.store.state)
            (env.styleOnPhaseChange w.previous w.store.state).dispatches
            (env.styleOnPhaseChange w.previous w.store.state).throws w2).andThen
        fun w3 =>
        call (callbacks (dispatchWith env.reducer (listener env fuel))).run
            (Event.dimensionOnPhaseChange w.store.state)
            (env.dimensionOnPhaseChange w.store.state).calls
            (env.dimensionOnPhaseChange w.store.state).throws w3 := rfl

theorem call_eq {α : Type} (perform : α → World → Result) (ev : Event) (todo : List α)
    (throws : Bool) (w : World) :
    call perform ev todo throws w =
      (forEach perform todo (w.logged ev)).andThen
        (fun w1 => ⟨w1, if throws then Status.fault else Status.done⟩) := rfl

/-- A collaborator that does nothing on the store: the call is logged and returns or
throws. -/
theorem call_quiet {α : Type} (perform : α → World → Result) (ev : Event)
    (throws : Bool) (w : World) :
    call perform ev [] throws w =
      ⟨w.logged ev, if throws then Status.fault else Status.done⟩ := rfl

/-- Every callback is one dispatch of the store. -/
theorem callbacks_run (d : Action → World → Result) (c : CallbackCall) (w : World) :
    ∃ a, (callbacks d).run c w = d a w := by
  cases c
  · exact ⟨_, rfl⟩
  · exact ⟨_, rfl⟩
  · exact ⟨_, rfl⟩
  · exact ⟨_, rfl⟩

theorem commitWith_eq (notify : World → Result) (s : State) (w : World) :
    commitWith notify s w = forEach (fun _ => notify) w.store.listeners (w.committed s) := rfl

/-! ## Relations kept by every step of a run -/

theorem andThen_rel {R : World → World → Prop} (hR : StepRel R) (w : World) (r : Result)
    (k : World → Result) (hr : R w r.world) (hk : ∀ v, R v (k v).world) :
    R w (r.andThen k).world := by
  rcases andThen_cases r k with ⟨_, h⟩ | ⟨_, h⟩
  · rw [h]; exact hR.trans _ _ _ hr (hk _)
  · rw [h]; exact hr

theorem forEach_rel {R : World → World → Prop} (hR : StepRel R) {α : Type}
    (body : α → World → Result) (hb : ∀ x w, R w (body x w).world) :
    ∀ (xs : List α) (w : World), R w (forEach body xs w).world
  | [], w => hR.refl w
  | x :: xs, w => andThen_rel hR w (body x w) (forEach body xs) (hb x w)
      (fun v => forEach_rel hR body hb xs v)

theorem commitWith_rel {R : World → World → Prop} (hR : StepRel R)
    (notify : World → Result) (hn : ∀ w, R w (notify w).world) (s : State) (w : World) :
    R w (commitWith notify s w).world :=
  hR.trans _ _ _ (hR.committed w s)
    (forEach_rel hR (fun _ => notify) (fun _ v => hn v) _ _)

theorem dispatchWith_rel {R : World → World → Prop} (hR : StepRel R)
    (reducer : State → Action → State) (notify : World → Result)
    (hn : ∀ w, R w (notify w).world) (a : Action) (w : World) :
    R w (dispatchWith reducer notify a w).world :=
  commitWith_rel hR notify hn _ w

theorem callbacks_rel {R : World → World → Prop} (hR : StepRel R)
    (reducer : State → Action → State) (notify : World → Result)
    (hn : ∀ w, R w (notify w).world) (c : CallbackCall) (w : World) :
    R w ((callbacks (dispatchWith reducer notify)).run c w).world := by
  obtain ⟨a, ha⟩ := callbacks_run (dispatchWith reducer notify) c w
  rw [ha]
  exact dispatchWith_rel hR reducer notify hn a w

/-- What a collaborator does after its call has been logged. -/
theorem call_rel_logged {R : World → World → Prop} (hR : StepRel R) {α : Type}
    (perform : α → World → Result) (hp : ∀ x w, R w (perform x w).world)
    (ev : Event) (todo : List α) (throws : Bool) (w : World) :
    R (w.logged ev) (call perform ev todo throws w).world := by
  rw [call_eq]
  exact andThen_rel hR _ _ _ (forEach_rel hR _ hp _ _) (fun v => hR.refl v)

theorem call_rel {R : World → World → Prop} (hR : MutationRel R) {α : Type}
    (perform : α → World → Result) (hp : ∀ x w, R w (perform x w).world)
    (ev : Event) (todo : List α) (throws : Bool) (w : World) :
    R w (call perform ev todo throws w).world :=
  hR.trans _ _ _ (hR.logged w ev)
    (call_rel_logged hR.toStepRel perform hp ev todo throws w)

/-- A relation kept by the elementary mutations is kept by every run of the listener,
whatever the collaborators do and whatever the fuel. -/
theorem listener_rel {R : World → World → Prop} (hR : MutationRel R) (env : Env) :
    ∀ (fuel : Nat) (w : World), R w (listener env fuel w).world
  | 0, w => hR.refl w
  | fuel + 1, w => by
    have ih := listener_rel hR env fuel
    have hd := dispatchWith_rel hR.toStepRel env.reducer _ ih
    have hc := callbacks_rel hR.toStepRel env.reducer _ ih
    rw [listener_succ]
    split
    · exact hR.recorded w
    · refine hR.trans _ _ _ (hR.recorded w) ?_
      refine andThen_rel hR.toStepRel _ _ _ (call_rel hR _ hd _ _ _ _) (fun v => ?_)
      refine andThen_rel hR.toStepRel _ _ _ (call_rel hR _ hd _ _ _ _) (fun v2 => ?_)
      exact call_rel hR _ hc _ _ _ _

/-- On a phase change, everything that follows the logging of the `fireHooks` call. -/
theorem listener_changed_rel {R : World → World → Prop} (hR : MutationRel R) (env : Env)
    (fuel : Nat) (w : World) (h : w.store.state.phase ≠ w.previous.phase) :
    R (w.recorded.logged (Event.fireHooks w.props w.store.state w.previous))
      (listener env (fuel + 1) w).world := by
  have ih := listener_rel hR env fuel
  have hd := dispatchWith_rel hR.toStepRel env.reducer _ ih
  have hc := callbacks_rel hR.toStepRel env.reducer _ ih
  rw [listener_succ, if_neg h]
  refine andThen_rel hR.toStepRel _ _ _
    (call_rel_logged hR.toStepRel _ hd _ _ _ _) (fun v => ?_)
  refine andThen_rel hR.toStepRel _ _ _ (call_rel hR _ hd _ _ _ _) (fun v2 => ?_)
  exact call_rel hR _ hc _ _ _ _

/-- Everything that follows the recording of the current state. -/
theorem listener_recorded_rel {R : World → World → Prop} (hR : MutationRel R) (env : Env)
    (fuel : Nat) (w : World) : R w.recorded (listener env (fuel + 1) w).world := by
  by_cases h : w.store.state.phase = w.previous.phase
  · rw [listener_succ, if_pos h]; exact hR.refl _
  · exact hR.trans _ _ _ (hR.logged _ _) (listener_changed_rel hR env fuel w h)

theorem commit_rel {R : World → World → Prop} (hR : MutationRel R)
    (env : Env) (fuel : Nat) (s : State) (w : World) : R w (commit env fuel s w).world :=
  commitWith_rel hR.toStepRel _ (listener_rel hR env fuel) s w

theorem dispatch_rel {R : World → World → Prop} (hR : MutationRel R)
    (env : Env) (fuel : Nat) (a : Action) (w : World) : R w (dispatch env fuel a w).world :=
  commitWith_rel hR.toStepRel _ (listener_rel hR env fuel) _ w

theorem commitAll_rel {R : World → World → Prop} (hR : MutationRel R) (env : Env)
    (fuel : Nat) : ∀ (ss : List State) (w : World), R w (commitAll env fuel ss w)
  | [], w => hR.refl w
  | s :: ss, w => hR.trans _ _ _ (commit_rel hR env fuel s w) (commitAll_rel hR env fuel ss _)

theorem dispatchAll_rel {R : World → World → Prop} (hR : MutationRel R) (env : Env)
    (fuel : Nat) : ∀ (as : List Action) (w : World), R w (dispatchAll env fuel as w)
  | [], w => hR.refl w
  | a :: as, w =>
    hR.trans _ _ _ (dispatch_rel hR env fuel a w) (dispatchAll_rel hR env fuel as _)

theorem frame_rel : MutationRel Frame where
  refl := fun _ => ⟨rfl, rfl, rfl, rfl⟩
  trans := fun _ _ _ h1 h2 =>
    ⟨h2.1.trans h1.1, h2.2.1.trans h1.2.1, h2.2.2.1.trans h1.2.2.1, h2.2.2.2.trans h1.2.2.2⟩
  committed := fun _ _ => ⟨rfl, rfl, rfl, rfl⟩
  logged := fun _ _ => ⟨rfl, rfl, rfl, rfl⟩
  recorded := fun _ => ⟨rfl, rfl, rfl, rfl⟩

theorem traceGrows_rel : MutationRel TraceGrows where
  refl := fun _ => ⟨[], by simp⟩
  trans := fun _ _ _ h1 h2 => by
    obtain ⟨r1, e1⟩ := h1
    obtain ⟨r2, e2⟩ := h2
    exact ⟨r1 ++ r2, by rw [e2, e1, List.append_assoc]⟩
  committed := fun _ _ => ⟨[], by simp [World.committed]⟩
  logged := fun _ ev => ⟨[ev], rfl⟩
  recorded := fun _ => ⟨[], by simp [World.recorded]⟩

theorem chainEnd_append (s m : State) (xs ys : List (State × State))
    (h : chainEnd s xs = some m) : chainEnd s (xs ++ ys) = chainEnd m ys := by
  induction xs generalizing s with
  | nil => simp [chainEnd] at h; subst h; rfl
  | cons x xs ih =>
    obtain ⟨p, c⟩ := x
    simp only [chainEnd, List.cons_append] at h ⊢
    by_cases hp : p = s
    · rw [if_pos hp] at h ⊢; exact ih c h
    · rw [if_neg hp] at h; exact absurd h (by simp)

theorem chained_rel : MutationRel Chained where
  refl := fun _ => ⟨[], by simp, rfl⟩
  trans := fun _ _ _ h1 h2 => by
    obtain ⟨r1, e1, c1⟩ := h1
    obtain ⟨r2, e2, c2⟩ := h2
    exact ⟨r1 ++ r2, by rw [e2, e1, List.append_assoc], by rw [chainEnd_append _ _ _ _ c1, c2]⟩
  committed := fun _ _ => ⟨[], by simp [World.committed], rfl⟩
  logged := fun _ _ => ⟨[], by simp [World.logged], rfl⟩
  recorded := fun w => ⟨[(w.previous, w.store.state)], rfl, by simp [chainEnd, World.recorded]⟩

theorem andThen_pure (r : Result) : r.andThen (fun w => ⟨w, Status.done⟩) = r := by
  obtain ⟨w, st⟩ := r
  cases st <;> rfl

/-- With the component's listener as the only subscription, a commit is the store
update followed by one run of the listener. -/
theorem commit_single (env : Env) (fuel : Nat) (s : State) (w : World) (i : Nat)
    (hl : w.store.listeners = [i]) :
    commit env fuel s w = listener env fuel (w.committed s) := by
  unfold commit
  rw [commitWith_eq, hl]
  exact andThen_pure _

/-- With no subscription, a commit is the store update alone. -/
theorem commit_unsubscribed (env : Env) (fuel : Nat) (s : State) (w : World)
    (hl : w.store.listeners = []) :
    commit env fuel s w = ⟨w.committed s, Status.done⟩ := by
  unfold commit
  rw [commitWith_eq, hl]
  rfl

theorem dispatch_eq_commit (env : Env) (fuel : Nat) (a : Action) (w : World) :
    dispatch env fuel a w = commit env fuel (env.reducer w.store.state a) w := rfl

/-- A hook that throws without dispatching ends the notification at `fireHooks`. -/
theorem listener_hooks_throw (env : Env) (fuel : Nat) (w : World)
    (h : w.store.state.phase ≠ w.previous.phase)
    (hd : (env.fireHooks w.props w.store.state w.previous).dispatches = [])
    (ht : (env.fireHooks w.props w.store.state w.previous).throws = true) :
    listener env (fuel + 1) w =
      ⟨w.recorded.logged (Event.fireHooks w.props w.store.state w.previous),
        Status.fault⟩ := by
  rw [listener_succ, if_neg h, hd, ht, call_quiet]
  rfl

theorem andThen_congr (r : Result) (k k2 : World → Result) (hk : k r.world = k2 r.world) :
    r.andThen k = r.andThen k2 := by
  obtain ⟨w, st⟩ := r
  cases st
  · exact hk
  · rfl
  · rfl

/-- A call on a collaborator that throws never returns normally. -/
theorem call_throws {α : Type} (perform : α → World → Result) (ev : Event) (todo : List α)
    (w : World) : (call perform ev todo true w).status ≠ Status.done := by
  rw [call_eq]
  rcases andThen_cases (forEach perform todo (w.logged ev))
    (fun w1 => ⟨w1, if true = true then Status.fault else Status.done⟩) with ⟨_, e⟩ | ⟨hn, e⟩
  · rw [e]; simp
  · rw [e]; exact hn

/-- On a phase change the listener is the three calls one after the other, each made
only after a normal return of the one before. -/
theorem listener_changed (env : Env) (fuel : Nat) (w : World)
    (h : w.store.state.phase ≠ w.previous.phase) :
    listener env (fuel + 1) w =
      (hooksCall env fuel w).andThen fun _ =>
        (styleCall env fuel w).andThen fun _ => marshalCall env fuel w := by
  rw [listener_succ, if_neg h]
  exact andThen_congr (hooksCall env fuel w) _ _ (andThen_congr (styleCall env fuel w) _ _ rfl)

/-- The listener ends with the first of the three calls that does not return
normally, and with the call of the dimension marshal otherwise. -/
theorem listener_changed_cases (env : Env) (fuel : Nat) (w : World)
    (h : w.store.state.phase ≠ w.previous.phase) :
    ((hooksCall env fuel w).status ≠ Status.done →
        listener env (fuel + 1) w = hooksCall env fuel w) ∧
      ((hooksCall env fuel w).status = Status.done →
        (styleCall env fuel w).status ≠ Status.done →
        listener env (fuel + 1) w = styleCall env fuel w) ∧
      ((hooksCall env fuel w).status = Status.done →
        (styleCall env fuel w).status = Status.done →
        listener env (fuel + 1) w = marshalCall env fuel w) := by
  rw [listener_changed env fuel w h]
  refine ⟨fun h1 => ?_, fun h1 h2 => ?_, fun h1 h2 => ?_⟩
  · rcases andThen_cases (hooksCall env fuel w)
      (fun _ => (styleCall env fuel w).andThen fun _ => marshalCall env fuel w)
      with ⟨hd, _⟩ | ⟨_, e⟩
    · exact absurd hd h1
    · exact e
  · rcases andThen_cases (hooksCall env fuel w)
      (fun _ => (styleCall env fuel w).andThen fun _ => marshalCall env fuel w)
      with ⟨_, e⟩ | ⟨hn, _⟩
    · rw [e]
      rcases andThen_cases (styleCall env fuel w) (fun _ => marshalCall env fuel w)
        with ⟨hd, _⟩ | ⟨_, e2⟩
      · exact absurd hd h2
      · exact e2
    · exact absurd h1 hn
  · rcases andThen_cases (hooksCall env fuel w)
      (fun _ => (styleCall env fuel w).andThen fun _ => marshalCall env fuel w)
      with ⟨_, e⟩ | ⟨hn, _⟩
    · rw [e]
      rcases andThen_cases (styleCall env fuel w) (fun _ => marshalCall env fuel w)
        with ⟨_, e2⟩ | ⟨hn2, _⟩
      · exact e2
      · exact absurd h2 hn2
    · exact absurd h1 hn

/-- The trace left by the call of `fireHooks`: the trace before the run, the call,
and what the notifications nested in it added. -/
theorem hooksCall_trace (env : Env) (fuel : Nat) (w : World) :
    ∃ rest, (hooksCall env fuel w).world.trace =
      w.trace ++ Event.fireHooks w.props w.store.state w.previous :: rest := by
  obtain ⟨rest, hr⟩ := call_rel_logged traceGrows_rel.toStepRel
    (dispatchWith env.reducer (listener env fuel))
    (dispatchWith_rel traceGrows_rel.toStepRel env.reducer _
      (listener_rel traceGrows_rel env fuel))
    (Event.fireHooks w.props w.store.state w.previous)
    (env.fireHooks w.props w.store.state w.previous).dispatches
    (env.fireHooks w.props w.store.state w.previous).throws w.recorded
  exact ⟨rest, by
    show (call _ _ _ _ w.recorded).world.trace = _
    rw [hr]; simp [World.logged, World.recorded]⟩

theorem styleCall_trace (env : Env) (fuel : Nat) (w : World) :
    ∃ rest, (styleCall env fuel w).world.trace =
      (hooksCall env fuel w).world.trace ++
        Event.styleOnPhaseChange w.previous w.store.state :: rest := by
  obtain ⟨rest, hr⟩ := call_rel_logged traceGrows_rel.toStepRel
    (dispatchWith env.reducer (listener env fuel))
    (dispatchWith_rel traceGrows_rel.toStepRel env.reducer _
      (listener_rel traceGrows_rel env fuel))
    (Event.styleOnPhaseChange w.previous w.store.state)
    (env.styleOnPhaseChange w.previous w.store.state).dispatches
    (env.styleOnPhaseChange w.previous w.store.state).throws (hooksCall env fuel w).world
  exact ⟨rest, by
    show (call _ _ _ _ (hooksCall env fuel w).world).world.trace = _
    rw [hr]; simp [World.logged]⟩

theorem marshalCall_trace (env : Env) (fuel : Nat) (w : World) :
    ∃ rest, (marshalCall env fuel w).world.trace =
      (styleCall env fuel w).world.trace ++
        Event.dimensionOnPhaseChange w.store.state :: rest := by
  obtain ⟨rest, hr⟩ := call_rel_logged traceGrows_rel.toStepRel
    (callbacks (dispatchWith env.reducer (listener env fuel))).run
    (callbacks_rel traceGrows_rel.toStepRel env.reducer _
      (listener_rel traceGrows_rel env fuel))
    (Event.dimensionOnPhaseChange w.store.state)
    (env.dimensionOnPhaseChange w.store.state).calls
    (env.dimensionOnPhaseChange w.store.state).throws (styleCall env fuel w).world
  exact ⟨rest, by
    show (call _ _ _ _ (styleCall env fuel w).world).world.trace = _
    rw [hr]; simp [World.logged]⟩

/-- A hook that throws ends the call of `fireHooks` without a normal return. -/
theorem hooksCall_throws (env : Env) (fuel : Nat) (w : World)
    (ht : (env.fireHooks w.props w.store.state w.previous).throws = true) :
    (hooksCall env fuel w).status ≠ Status.done := by
  unfold hooksCall
  rw [ht]
  exact call_throws _ _ _ _

/-! ## The listener: phase unchanged -/

/-- C1: a run of the listener in which the phase of the store's current state equals
the phase of the recorded previous state returns at once: no collaborator is called
(the trace is unchanged) and nothing changes except that the recorded previous state
becomes the current state. -/
theorem listener_same_phase_only_records (env : Env) (fuel : Nat) (w : World)
    (h : w.store.state.phase = w.previous.phase) :
    listener env (fuel + 1) w = ⟨w.recorded, Status.done⟩ ∧
      w.recorded.trace = w.trace ∧ w.recorded.previous = w.store.state ∧
      w.recorded.store = w.store ∧ w.recorded.props = w.props ∧
      w.recorded.unsubscribe = w.unsubscribe := by
  refine ⟨?_, rfl, rfl, rfl, rfl, rfl⟩
  rw [listener_succ, if_pos h]

theorem listener_same_phase_only_records_witness :
    ((componentWillMount dragging mountHooks).committed draggingMoved).store.state.phase =
        ((componentWillMount dragging mountHooks).committed draggingMoved).previous.phase ∧
      (listener demoEnv 1 ((componentWillMount dragging mountHooks).committed draggingMoved)
        ).world.trace = [] :=
  ⟨by decide, by
    rw [(listener_same_phase_only_records demoEnv 0
      ((componentWillMount dragging mountHooks).committed draggingMoved) (by decide)).1]
    rfl⟩

/-! ## The hooks passed to `fireHooks` -/

/-- C3: the hooks handed to `fireHooks` are the ones in the props when the store
notifies.  After a mount with `mountProps` and a first phase change, the props are
replaced by `newProps`; at the next phase change `fireHooks` is the first call made
and it receives `newProps`, while the first phase change had received `mountProps`. -/
theorem fireHooks_receives_props_of_the_moment (env : Env) (fuel : Nat)
    (init s1 s2 : State) (mountProps newProps : Hooks)
    (h1 : s1.phase ≠ init.phase)
    (h2 : s2.phase ≠
      (commit env (fuel + 1) s1 (componentWillMount init mountProps)).world.previous.phase) :
    ∃ rest1 rest2,
      (commit env (fuel + 1) s1 (componentWillMount init mountProps)).world.trace =
        Event.fireHooks mountProps s1 init :: rest1 ∧
      (commit env (fuel + 1) s2
          (setProps newProps
            (commit env (fuel + 1) s1 (componentWillMount init mountProps)).world)).world.trace =
        (commit env (fuel + 1) s1 (componentWillMount init mountProps)).world.trace ++
          Event.fireHooks newProps s2
            (commit env (fuel + 1) s1 (componentWillMount init mountProps)).world.previous ::
          rest2 := by
  have hf := commit_rel frame_rel env (fuel + 1) s1 (componentWillMount init mountProps)
  generalize hw : (commit env (fuel + 1) s1 (componentWillMount init mountProps)).world = w1
    at hf h2 ⊢
  have e1 : commit env (fuel + 1) s1 (componentWillMount init mountProps) =
      listener env (fuel + 1) ((componentWillMount init mountProps).committed s1) :=
    commit_single env _ s1 _ 0 rfl
  obtain ⟨rest1, hr1⟩ := listener_changed_rel traceGrows_rel env fuel
    ((componentWillMount init mountProps).committed s1) h1
  rw [← e1, hw] at hr1
  have e2 : commit env (fuel + 1) s2 (setProps newProps w1) =
      listener env (fuel + 1) ((setProps newProps w1).committed s2) :=
    commit_single env _ s2 _ 0 hf.2.1
  obtain ⟨rest2, hr2⟩ := listener_changed_rel traceGrows_rel env fuel
    ((setProps newProps w1).committed s2) h2
  rw [← e2] at hr2
  exact ⟨rest1, rest2, hr1, by rw [hr2]; simp [World.logged, World.recorded,
    World.committed, setProps]⟩

theorem fireHooks_receives_props_of_the_moment_witness :
    ∃ rest1 rest2,
      (commit demoEnv 3 collecting (componentWillMount idle mountHooks)).world.trace =
        Event.fireHooks mountHooks collecting idle :: rest1 ∧
      (commit demoEnv 3 idle
          (setProps laterHooks
            (commit demoEnv 3 collecting (componentWillMount idle mountHooks)).world)).world.trace =
        (commit demoEnv 3 collecting (componentWillMount idle mountHooks)).world.trace ++
          Event.fireHooks laterHooks idle
            (commit demoEnv 3 collecting (componentWillMount idle mountHooks)).world.previous ::
          rest2 :=
  fireHooks_receives_props_of_the_moment demoEnv 2 idle collecting idle mountHooks laterHooks
    (by decide) (by decide)

/-! ## Hooks and the style update -/

/-- C4, as stated, fails: after a mount in the idle phase the store commits a
collecting state; `fireHooks` is called for the transition before the style marshal
has been told about it. -/
theorem hooks_after_style_counterexample :
    (commit quietEnv 1 collecting (componentWillMount idle mountHooks)).world.trace =
        [Event.fireHooks mountHooks collecting idle,
          Event.styleOnPhaseChange idle collecting,
          Event.dimensionOnPhaseChange collecting] ∧
      styleAppliedBeforeHooks []
        (commit quietEnv 1 collecting (componentWillMount idle mountHooks)).world.trace =
        false := by
  decide

/-- C4 (amended): on a phase change `fireHooks` is the first collaborator called, and
it is called in the world in which the store and the recorded previous state already
hold the current state and nothing has been added to the trace: every notification
nested in the run compares on from the current state.  The style marshal's
`onPhaseChange(previous, current)` for that transition is called only after the call
of `fireHooks` has returned normally, as the very next call; when the call of
`fireHooks` does not return normally the run ends with it. -/
theorem hooks_fire_before_style (env : Env) (fuel : Nat) (w : World)
    (h : w.store.state.phase ≠ w.previous.phase) :
    hooksCall env fuel w =
        call (dispatchWith env.reducer (listener env fuel))
          (Event.fireHooks w.props w.store.state w.previous)
          (env.fireHooks w.props w.store.state w.previous).dispatches
          (env.fireHooks w.props w.store.state w.previous).throws w.recorded ∧
      w.recorded.previous = w.store.state ∧ w.recorded.store = w.store ∧
      w.recorded.trace = w.trace ∧
      (∃ nested, (hooksCall env fuel w).world.trace =
        w.trace ++ Event.fireHooks w.props w.store.state w.previous :: nested) ∧
      ((hooksCall env fuel w).status ≠ Status.done →
        listener env (fuel + 1) w = hooksCall env fuel w) ∧
      ((hooksCall env fuel w).status = Status.done →
        ∃ rest, (listener env (fuel + 1) w).world.trace =
          (hooksCall env fuel w).world.trace ++
            Event.styleOnPhaseChange w.previous w.store.state :: rest) ∧
      ∃ more,
        (listener env (fuel + 1) w).world.compared =
          w.compared ++ (w.previous, w.store.state) :: more ∧
        chainEnd w.store.state more = some (listener env (fuel + 1) w).world.previous := by
  obtain ⟨c1, c2, c3⟩ := listener_changed_cases env fuel w h
  refine ⟨rfl, rfl, rfl, rfl, hooksCall_trace env fuel w, c1, fun hd => ?_, ?_⟩
  · obtain ⟨r2, hr2⟩ := styleCall_trace env fuel w
    by_cases hs : (styleCall env fuel w).status = Status.done
    · obtain ⟨r3, hr3⟩ := marshalCall_trace env fuel w
      exact ⟨r2 ++ Event.dimensionOnPhaseChange w.store.state :: r3, by
        rw [c3 hd hs, hr3, hr2]; simp⟩
    · exact ⟨r2, by rw [c2 hd hs, hr2]⟩
  · obtain ⟨more, hm, hc⟩ := listener_recorded_rel chained_rel env fuel w
    exact ⟨more, by rw [hm]; simp [World.recorded], hc⟩

theorem hooks_fire_before_style_witness :
    (∃ nested,
        (hooksCall hookDispatchesEnv 2
          ((componentWillMount idle mountHooks).committed collecting)).world.trace =
          [] ++ Event.fireHooks mountHooks collecting idle :: nested) ∧
      (listener hookDispatchesEnv 3
          ((componentWillMount idle mountHooks).committed collecting)) =
        hooksCall hookDispatchesEnv 2
          ((componentWillMount idle mountHooks).committed collecting) ∧
      ∃ more,
        (listener hookDispatchesEnv 3
          ((componentWillMount idle mountHooks).committed collecting)).world.compared =
          [] ++ (idle, collecting) :: more ∧
        chainEnd collecting more =
          some (listener hookDispatchesEnv 3
            ((componentWillMount idle mountHooks).committed collecting)).world.previous :=
  ⟨(hooks_fire_before_style hookDispatchesEnv 2
      ((componentWillMount idle mountHooks).committed collecting) (by decide)).2.2.2.2.1,
    (hooks_fire_before_style hookDispatchesEnv 2
      ((componentWillMount idle mountHooks).committed collecting) (by decide)).2.2.2.2.2.1
      (by decide),
    (hooks_fire_before_style hookDispatchesEnv 2
      ((componentWillMount idle mountHooks).committed collecting) (by decide)).2.2.2.2.2.2.2⟩

/-! ## The callbacks of the dimension marshal -/

/-- C5: each of the four callbacks handed to the dimension marshal is exactly one
dispatch on the component's store, whatever the store does with it, with the
arguments passed through unchanged: `publishDraggables(ds)` dispatches
`publishDraggableDimensions(ds)`, `publishDroppables(ds)` dispatches
`publishDroppableDimensions(ds)`, `updateDroppableScroll(id, offset)` dispatches
`updateDroppableDimensionScroll(id, offset)` and `cancel()` dispatches `clean()`. -/
theorem callbacks_dispatch_once (storeDispatch : Action → World → Result)
    (draggables : List DraggableDimension) (droppables : List DroppableDimension)
    (id : DroppableId) (offset : Position) (w : World) :
    (callbacks storeDispatch).publishDraggables draggables w =
        storeDispatch (Action.publishDraggableDimensions draggables) w ∧
      (callbacks storeDispatch).publishDroppables droppables w =
        storeDispatch (Action.publishDroppableDimensions droppables) w ∧
      (callbacks storeDispatch).updateDroppableScroll id offset w =
        storeDispatch (Action.updateDroppableDimensionScroll id offset) w ∧
      (callbacks storeDispatch).cancel w = storeDispatch Action.clean w :=
  ⟨rfl, rfl, rfl, rfl⟩

/-! ## Faults raised by a hook -/

/-- C6, as stated, fails: a hook dispatches `clean` on the store and then throws while
the change from idle to collecting is notified; the commit ends with the fault, and
neither the store nor the recorded previous state holds the collecting state. -/
theorem fault_after_dispatch_counterexample :
    (hookDispatchesEnv.fireHooks mountHooks collecting idle).throws = true ∧
      (commit hookDispatchesEnv 3 collecting (componentWillMount idle mountHooks)).status =
        Status.fault ∧
      (commit hookDispatchesEnv 3 collecting
        (componentWillMount idle mountHooks)).world.store.state ≠ collecting ∧
      (commit hookDispatchesEnv 3 collecting
        (componentWillMount idle mountHooks)).world.previous ≠ collecting ∧
      (commit hookDispatchesEnv 3 collecting
        (componentWillMount idle mountHooks)).world.compared =
        [(idle, collecting), (collecting, idle)] := by
  decide

/-- C6 (amended): when `fireHooks` throws while the phase change from `s0` to `s1` is
notified, the notification ends with the call of `fireHooks`, without a normal
return, and nothing is undone: the world is the one that call left.  The recorded
previous state was set to `s1` before the call; afterwards it is the state delivered
by the last notification nested in the call, each of them having compared on from
`s1`, and the next notification, of any state `s2`, compares `s2` against it.  When
the hook dispatched nothing before it threw, the store still holds `s1` and the
recorded previous state is `s1`, so the next notification compares against `s1`. -/
theorem fault_keeps_committed_state (env : Env) (fuel : Nat) (w : World) (i : Nat)
    (s0 s1 : State)
    (hl : w.store.listeners = [i]) (hp : w.previous = s0) (h : s1.phase ≠ s0.phase)
    (ht : (env.fireHooks w.props s1 s0).throws = true) :
    commit env (fuel + 1) s1 w = hooksCall env fuel (w.committed s1) ∧
      (commit env (fuel + 1) s1 w).status ≠ Status.done ∧
      (∃ nested,
        (commit env (fuel + 1) s1 w).world.compared = w.compared ++ (s0, s1) :: nested ∧
        chainEnd s1 nested = some (commit env (fuel + 1) s1 w).world.previous) ∧
      (∀ s2, ∃ rest,
        (commit env (fuel + 1) s2 (commit env (fuel + 1) s1 w).world).world.compared =
          (commit env (fuel + 1) s1 w).world.compared ++
            ((commit env (fuel + 1) s1 w).world.previous, s2) :: rest) ∧
      ((env.fireHooks w.props s1 s0).dispatches = [] →
        (commit env (fuel + 1) s1 w).status = Status.fault ∧
          (commit env (fuel + 1) s1 w).world.store.state = s1 ∧
          (commit env (fuel + 1) s1 w).world.previous = s1 ∧
          ∀ s2, ∃ rest,
            (commit env (fuel + 1) s2 (commit env (fuel + 1) s1 w).world).world.compared =
              w.compared ++ (s0, s1) :: (s1, s2) :: rest) := by
  subst hp
  have hf := commit_rel frame_rel env (fuel + 1) s1 w
  have hthrows : (hooksCall env fuel (w.committed s1)).status ≠ Status.done :=
    hooksCall_throws env fuel (w.committed s1) ht
  have e1 : commit env (fuel + 1) s1 w = hooksCall env fuel (w.committed s1) := by
    rw [commit_single env (fuel + 1) s1 w i hl]
    exact (listener_changed_cases env fuel (w.committed s1) h).1 hthrows
  have hchain : ∃ nested,
      (commit env (fuel + 1) s1 w).world.compared = w.compared ++ (w.previous, s1) :: nested ∧
      chainEnd s1 nested = some (commit env (fuel + 1) s1 w).world.previous := by
    obtain ⟨nested, hn, hc⟩ := listener_recorded_rel chained_rel env fuel (w.committed s1)
    rw [commit_single env (fuel + 1) s1 w i hl]
    exact ⟨nested, by rw [hn]; simp [World.recorded, World.committed], hc⟩
  have hnext : ∀ s2, ∃ rest,
      (commit env (fuel + 1) s2 (commit env (fuel + 1) s1 w).world).world.compared =
        (commit env (fuel + 1) s1 w).world.compared ++
          ((commit env (fuel + 1) s1 w).world.previous, s2) :: rest := by
    intro s2
    obtain ⟨rest, hr, -⟩ := listener_recorded_rel chained_rel env fuel
      ((commit env (fuel + 1) s1 w).world.committed s2)
    rw [commit_single env (fuel + 1) s2 _ i (hf.2.1.trans hl)]
    exact ⟨rest, by rw [hr]; simp [World.recorded, World.committed]⟩
  refine ⟨e1, by rw [e1]; exact hthrows, hchain, hnext, fun hd => ?_⟩
  have e2 : commit env (fuel + 1) s1 w =
      ⟨(w.committed s1).recorded.logged
        (Event.fireHooks (w.committed s1).props (w.committed s1).store.state
          (w.committed s1).previous), Status.fault⟩ := by
    rw [commit_single env (fuel + 1) s1 w i hl]
    exact listener_hooks_throw env fuel (w.committed s1) h hd ht
  refine ⟨by rw [e2], by rw [e2]; rfl, by rw [e2]; rfl, fun s2 => ?_⟩
  obtain ⟨rest, hr⟩ := hnext s2
  refine ⟨rest, ?_⟩
  rw [hr, e2]
  simp [World.logged, World.recorded, World.committed]

theorem fault_keeps_committed_state_witness :
    (hookDispatchesEnv.fireHooks mountHooks collecting idle).throws = true ∧
      (commit hookDispatchesEnv 3 collecting (componentWillMount idle mountHooks)).status ≠
        Status.done ∧
      (∃ nested,
        (commit hookDispatchesEnv 3 collecting
          (componentWillMount idle mountHooks)).world.compared =
          [] ++ (idle, collecting) :: nested ∧
        chainEnd collecting nested =
          some (commit hookDispatchesEnv 3 collecting
            (componentWillMount idle mountHooks)).world.previous) ∧
      ((faultyEnv.fireHooks mountHooks collecting idle).dispatches = [] →
        (commit faultyEnv 1 collecting (componentWillMount idle mountHooks)).status =
            Status.fault ∧
          (commit faultyEnv 1 collecting
            (componentWillMount idle mountHooks)).world.store.state = collecting ∧
          (commit faultyEnv 1 collecting
            (componentWillMount idle mountHooks)).world.previous = collecting ∧
          ∀ s2, ∃ rest,
            (commit faultyEnv 1 s2
                (commit faultyEnv 1 collecting (componentWillMount idle mountHooks)).world
              ).world.compared =
              [] ++ (idle, collecting) :: (collecting, s2) :: rest) :=
  ⟨rfl,
    (fault_keeps_committed_state hookDispatchesEnv 2 (componentWillMount idle mountHooks) 0
      idle collecting rfl rfl (by decide) rfl).2.1,
    (fault_keeps_committed_state hookDispatchesEnv 2 (componentWillMount idle mountHooks) 0
      idle collecting rfl rfl (by decide) rfl).2.2.1,
    (fault_keeps_committed_state faultyEnv 0 (componentWillMount idle mountHooks) 0
      idle collecting rfl rfl (by decide) rfl).2.2.2.2⟩

/-- C7, as stated, fails: a hook throws inside `fireHooks` on the change from idle to
collecting; the exception leaves the listener and neither the style marshal nor the
dimension marshal is told about the transition. -/
theorem fault_isolation_counterexample :
    (faultyEnv.fireHooks mountHooks collecting idle).throws = true ∧
      (commit faultyEnv 1 collecting (componentWillMount idle mountHooks)).status =
        Status.fault ∧
      (commit faultyEnv 1 collecting (componentWillMount idle mountHooks)).world.trace =
        [Event.fireHooks mountHooks collecting idle] ∧
      Event.styleOnPhaseChange idle collecting ∉
        (commit faultyEnv 1 collecting (componentWillMount idle mountHooks)).world.trace ∧
      Event.dimensionOnPhaseChange collecting ∉
        (commit faultyEnv 1 collecting (componentWillMount idle mountHooks)).world.trace := by
  decide

/-- C7 (amended): on a phase change the style marshal and the dimension marshal are
called only after the call before them has returned normally.  A run ends with the
call of `fireHooks` when that call does not return normally, which is the case
whenever a hook throws: no call is made after it, so this run tells neither marshal
about the transition (when the hook dispatched nothing, `fireHooks` is the only call
made).  After a normal return of the call of `fireHooks` the very next call is the
style marshal's `onPhaseChange(previous, current)`, and after a normal return of
that call the very next call is the dimension marshal's `onPhaseChange(current)`. -/
theorem marshals_called_only_after_hooks_return (env : Env) (fuel : Nat) (w : World)
    (h : w.store.state.phase ≠ w.previous.phase) :
    ((env.fireHooks w.props w.store.state w.previous).throws = true →
        (hooksCall env fuel w).status ≠ Status.done) ∧
      ((hooksCall env fuel w).status ≠ Status.done →
        listener env (fuel + 1) w = hooksCall env fuel w) ∧
      ((env.fireHooks w.props w.store.state w.previous).throws = true →
        (env.fireHooks w.props w.store.state w.previous).dispatches = [] →
        listener env (fuel + 1) w =
          ⟨w.recorded.logged (Event.fireHooks w.props w.store.state w.previous),
            Status.fault⟩) ∧
      ((hooksCall env fuel w).status = Status.done →
        (styleCall env fuel w).status ≠ Status.done →
        listener env (fuel + 1) w = styleCall env fuel w) ∧
      ((hooksCall env fuel w).status = Status.done →
        (styleCall env fuel w).status = Status.done →
        listener env (fuel + 1) w = marshalCall env fuel w) ∧
      (∃ nested, (styleCall env fuel w).world.trace =
        (hooksCall env fuel w).world.trace ++
          Event.styleOnPhaseChange w.previous w.store.state :: nested) ∧
      ∃ nested, (marshalCall env fuel w).world.trace =
        (styleCall env fuel w).world.trace ++
          Event.dimensionOnPhaseChange w.store.state :: nested := by
  obtain ⟨c1, c2, c3⟩ := listener_changed_cases env fuel w h
  exact ⟨hooksCall_throws env fuel w, c1,
    fun ht hd => listener_hooks_throw env fuel w h hd ht, c2, c3,
    styleCall_trace env fuel w, marshalCall_trace env fuel w⟩

theorem marshals_called_only_after_hooks_return_witness :
    (hookDispatchesEnv.fireHooks mountHooks collecting idle).throws = true ∧
      (hooksCall hookDispatchesEnv 2
        ((componentWillMount idle mountHooks).committed collecting)).status ≠ Status.done ∧
      listener hookDispatchesEnv 3
          ((componentWillMount idle mountHooks).committed collecting) =
        hooksCall hookDispatchesEnv 2
          ((componentWillMount idle mountHooks).committed collecting) ∧
      listener faultyEnv 1 ((componentWillMount idle mountHooks).committed collecting) =
        ⟨((componentWillMount idle mountHooks).committed collecting).recorded.logged
          (Event.fireHooks mountHooks collecting idle), Status.fault⟩ ∧
      listener demoEnv 3 ((componentWillMount idle mountHooks).committed collecting) =
        marshalCall demoEnv 2 ((componentWillMount idle mountHooks).committed collecting) :=
  ⟨rfl,
    (marshals_called_only_after_hooks_return hookDispatchesEnv 2
      ((componentWillMount idle mountHooks).committed collecting) (by decide)).1 rfl,
    (marshals_called_only_after_hooks_return hookDispatchesEnv 2
      ((componentWillMount idle mountHooks).committed collecting) (by decide)).2.1
      (by decide),
    (marshals_called_only_after_hooks_return faultyEnv 0
      ((componentWillMount idle mountHooks).committed collecting) (by decide)).2.2.1 rfl rfl,
    (marshals_called_only_after_hooks_return demoEnv 2
      ((componentWillMount idle mountHooks).committed collecting) (by decide)).2.2.2.2.1
      (by decide) (by decide)⟩

/-! ## One dispatch of the hooks per phase change -/

theorem hookArgs_append (xs ys : List Event) :
    hookArgs (xs ++ ys) = hookArgs xs ++ hookArgs ys := by
  induction xs with
  | nil => rfl
  | cons e xs ih => cases e <;> simp [hookArgs, ih]

/-- A top-level commit when no collaborator dispatches: the recorded previous state
becomes the committed state and `fireHooks` is called exactly when the phase
differs, with the committed state and the state recorded before. -/
theorem commit_quiet (env : Env) (hq : env.Quiet) (fuel : Nat) (s : State) (w : World)
    (i : Nat) (hl : w.store.listeners = [i]) :
    (commit env (fuel + 1) s w).world.previous = s ∧
      hookArgs (commit env (fuel + 1) s w).world.trace =
        hookArgs w.trace ++
          (if s.phase = w.previous.phase then [] else [(w.props, s, w.previous)]) := by
  rw [commit_single env (fuel + 1) s w i hl, listener_succ]
  by_cases h : s.phase = w.previous.phase
  · rw [if_pos (show (w.committed s).store.state.phase = (w.committed s).previous.phase from h),
      if_pos h]
    exact ⟨rfl, by simp [World.recorded, World.committed]⟩
  · rw [if_neg (show ¬ (w.committed s).store.state.phase = (w.committed s).previous.phase from h),
      if_neg h, hq.1, hq.2.1, hq.2.2, call_quiet]
    cases (env.fireHooks (w.committed s).props (w.committed s).store.state
      (w.committed s).previous).throws
    · cases (env.styleOnPhaseChange (w.committed s).previous
        (w.committed s).store.state).throws
      · cases (env.dimensionOnPhaseChange (w.committed s).store.state).throws <;>
          simp [call_quiet, Result.andThen, World.logged, World.recorded, World.committed,
            hookArgs_append, hookArgs]
      · simp [call_quiet, Result.andThen, World.logged, World.recorded, World.committed,
          hookArgs_append, hookArgs]
    · simp [Result.andThen, World.logged, World.recorded, World.committed,
        hookArgs_append, hookArgs]

theorem commitAll_quiet (env : Env) (hq : env.Quiet) (fuel : Nat) :
    ∀ (ss : List State) (w : World) (i : Nat), w.store.listeners = [i] →
      hookArgs (commitAll env (fuel + 1) ss w).trace =
        hookArgs w.trace ++ (phaseChanges w.previous ss).map fun x => (w.props, x.1, x.2)
  | [], w, _, _ => by simp [commitAll, phaseChanges]
  | s :: ss, w, i, hl => by
    have hf := commit_rel frame_rel env (fuel + 1) s w
    obtain ⟨hp, ht⟩ := commit_quiet env hq fuel s w i hl
    have ih := commitAll_quiet env hq fuel ss (commit env (fuel + 1) s w).world i
      (hf.2.1.trans hl)
    rw [commitAll, ih, ht, hp, hf.1]
    by_cases h : s.phase = w.previous.phase
    · simp [phaseChanges, h]
    · simp [phaseChanges, h]

/-- C2: the store is mounted in state `s0` and then commits `s1, ..., sn`, one per
notification, no collaborator dispatching from inside a notification.  The calls
of `fireHooks`, in order, are exactly one call with `current = si` and
`previous = s(i-1)` for every `i` whose phase differs from the phase of `s(i-1)`,
and no other call. -/
theorem fireHooks_once_per_phase_change (env : Env) (hq : env.Quiet) (fuel : Nat)
    (s0 : State) (props : Hooks) (ss : List State) :
    hookCalls (commitAll env (fuel + 1) ss (componentWillMount s0 props)).trace =
      phaseChanges s0 ss := by
  unfold hookCalls
  rw [commitAll_quiet env hq fuel ss (componentWillMount s0 props) 0 rfl]
  simp [componentWillMount, createStore, hookArgs]

theorem fireHooks_once_per_phase_change_witness :
    quietEnv.Quiet ∧
      hookCalls (commitAll quietEnv 1 [collecting, dragging, draggingMoved, idle, idle]
          (componentWillMount idle mountHooks)).trace =
        [(collecting, idle), (dragging, collecting), (idle, draggingMoved)] :=
  ⟨⟨fun _ _ _ => rfl, fun _ _ => rfl, fun _ => rfl⟩,
    (fireHooks_once_per_phase_change quietEnv ⟨fun _ _ _ => rfl, fun _ _ => rfl, fun _ => rfl⟩
      0 idle mountHooks [collecting, dragging, draggingMoved, idle, idle]).trans
      (by decide)⟩

/-! ## Unmounting -/

theorem dispatchAll_unsubscribed (env : Env) (fuel : Nat) :
    ∀ (as : List Action) (w : World), w.store.listeners = [] →
      (dispatchAll env fuel as w).trace = w.trace ∧
        (dispatchAll env fuel as w).compared = w.compared ∧
        (dispatchAll env fuel as w).store.listeners = []
  | [], _, hl => ⟨rfl, rfl, hl⟩
  | a :: as, w, hl => by
    rw [dispatchAll, dispatch_eq_commit, commit_unsubscribed env fuel _ w hl]
    exact dispatchAll_unsubscribed env fuel as _ hl

/-- C8: mounting subscribes the listener once; `componentWillUnmount` calls the
unsubscribe function of that subscription and `styleMarshal.unmount`.  After any
run, once the component is unmounted no action dispatched on the store reaches a
collaborator: the trace stays what it was at the unmount, whatever the phases of the
later states. -/
theorem unmount_stops_notifications (env : Env) (fuel : Nat) (init : State) (props : Hooks)
    (before after : List Action) :
    (componentWillMount init props).store.listeners.length = 1 ∧
      (componentWillUnmount
        (dispatchAll env fuel before (componentWillMount init props))).store.listeners = [] ∧
      (dispatchAll env fuel after
        (componentWillUnmount
          (dispatchAll env fuel before (componentWillMount init props)))).trace =
        (dispatchAll env fuel before (componentWillMount init props)).trace ++
          [Event.styleUnmount] ∧
      (dispatchAll env fuel after
        (componentWillUnmount
          (dispatchAll env fuel before (componentWillMount init props)))).compared =
        (dispatchAll env fuel before (componentWillMount init props)).compared := by
  have hf := dispatchAll_rel frame_rel env fuel before (componentWillMount init props)
  have hl : (componentWillUnmount
      (dispatchAll env fuel before (componentWillMount init props))).store.listeners = [] := by
    have h1 : (dispatchAll env fuel before (componentWillMount init props)).store.listeners
        = [0] := hf.2.1
    have h2 : (dispatchAll env fuel before (componentWillMount init props)).unsubscribe
        = 0 := hf.2.2.2
    simp [componentWillUnmount, Store.unsubscribe, h1, h2]
  obtain ⟨ht, hc, -⟩ := dispatchAll_unsubscribed env fuel after _ hl
  exact ⟨rfl, hl, by rw [ht]; rfl, by rw [hc]; rfl⟩

/-! ## Order of the notifications -/

theorem expectedCalls_append (env : Env) (props : Hooks) (xs ys : List (State × State)) :
    expectedCalls env props (xs ++ ys) =
      expectedCalls env props xs ++ expectedCalls env props ys := by
  induction xs with
  | nil => rfl
  | cons x xs ih =>
    obtain ⟨p, c⟩ := x
    simp only [List.cons_append, expectedCalls]
    split_ifs <;> simp [ih]

theorem grouped_rel (env : Env) : StepRel (Grouped env) where
  refl := fun _ => ⟨rfl, [], by simp, by simp [expectedCalls]⟩
  trans := fun a b c h1 h2 => by
    obtain ⟨p1, d1, c1, t1⟩ := h1
    obtain ⟨p2, d2, c2, t2⟩ := h2
    refine ⟨p2.trans p1, d1 ++ d2, by rw [c2, c1, List.append_assoc], ?_⟩
    rw [t2, t1, p1, expectedCalls_append, List.append_assoc]
  committed := fun _ _ => ⟨rfl, [], by simp [World.committed], by simp [World.committed, expectedCalls]⟩

/-- When only the dimension marshal dispatches, every run of the listener adds to the
trace the calls expected for the comparisons it adds to the history. -/
theorem listener_grouped (env : Env) (hm : env.OnlyMarshalDispatches) :
    ∀ (fuel : Nat) (w : World), Grouped env w (listener env fuel w).world
  | 0, w => (grouped_rel env).refl w
  | fuel + 1, w => by
    have ih := listener_grouped env hm fuel
    have hc := callbacks_rel (grouped_rel env) env.reducer _ ih
    rw [listener_succ]
    by_cases h : w.store.state.phase = w.previous.phase
    · rw [if_pos h]
      exact ⟨rfl, [(w.previous, w.store.state)], rfl, by simp [expectedCalls, h, World.recorded]⟩
    · rw [if_neg h, hm.1, hm.2, call_quiet]
      cases ht1 : (env.fireHooks w.props w.store.state w.previous).throws
      · simp only [Bool.false_eq_true, if_false, andThen_done, call_quiet]
        cases ht2 : (env.styleOnPhaseChange w.previous w.store.state).throws
        · simp only [Bool.false_eq_true, if_false, andThen_done]
          refine (grouped_rel env).trans _ _ _ ?_
            (call_rel_logged (grouped_rel env) _ hc _ _ _ _)
          exact ⟨rfl, [(w.previous, w.store.state)], rfl, by
            simp [expectedCalls, h, ht1, ht2, World.recorded, World.logged]⟩
        · exact ⟨rfl, [(w.previous, w.store.state)], rfl, by
            simp [expectedCalls, h, ht1, ht2, World.recorded, World.logged, Result.andThen]⟩
      · exact ⟨rfl, [(w.previous, w.store.state)], rfl, by
          simp [expectedCalls, h, ht1, World.recorded, World.logged, Result.andThen]⟩

theorem dispatchAll_grouped (env : Env) (hm : env.OnlyMarshalDispatches) (fuel : Nat) :
    ∀ (as : List Action) (w : World), Grouped env w (dispatchAll env fuel as w)
  | [], w => (grouped_rel env).refl w
  | _ :: as, w =>
    (grouped_rel env).trans _ _ _
      (commitWith_rel (grouped_rel env) _ (listener_grouped env hm fuel) _ w)
      (dispatchAll_grouped env hm fuel as _)

/-- C9: on every phase change, whatever the collaborators do, the calls are made in
the order `fireHooks`, style marshal, dimension marshal: each call is made in the
world the call before it left, only after that call returned normally, and the
trace of the run is the call of `fireHooks` and what was nested in it, then the call
of the style marshal and what was nested in it, then the call of the dimension
marshal and what was nested in it.  So everything the dimension marshal's
synchronous dispatches cause comes after the calls of the hooks and of the style
marshal for the earlier transition have returned.  When the dispatches made from
inside a notification come from the dimension marshal only, the whole trace of a run
from the mount is, in the order in which the listener ran, the calls of one
transition after the calls of the transition before it, with no interleaving. -/
theorem notifications_in_transition_order (env : Env) (fuel : Nat) (w : World)
    (h : w.store.state.phase ≠ w.previous.phase) :
    (∃ nested, (hooksCall env fuel w).world.trace =
        w.trace ++ Event.fireHooks w.props w.store.state w.previous :: nested) ∧
      (∃ nested, (styleCall env fuel w).world.trace =
        (hooksCall env fuel w).world.trace ++
          Event.styleOnPhaseChange w.previous w.store.state :: nested) ∧
      (∃ nested, (marshalCall env fuel w).world.trace =
        (styleCall env fuel w).world.trace ++
          Event.dimensionOnPhaseChange w.store.state :: nested) ∧
      ((hooksCall env fuel w).status ≠ Status.done →
        listener env (fuel + 1) w = hooksCall env fuel w) ∧
      ((hooksCall env fuel w).status = Status.done →
        (styleCall env fuel w).status ≠ Status.done →
        listener env (fuel + 1) w = styleCall env fuel w) ∧
      ((hooksCall env fuel w).status = Status.done →
        (styleCall env fuel w).status = Status.done →
        listener env (fuel + 1) w = marshalCall env fuel w ∧
          ∃ inHooks inStyle inMarshal,
            (listener env (fuel + 1) w).world.trace =
              w.trace ++ Event.fireHooks w.props w.store.state w.previous :: inHooks ++
                Event.styleOnPhaseChange w.previous w.store.state :: inStyle ++
                Event.dimensionOnPhaseChange w.store.state :: inMarshal) ∧
      (env.OnlyMarshalDispatches →
        ∀ (init : State) (props : Hooks) (as : List Action),
          (dispatchAll env fuel as (componentWillMount init props)).trace =
            expectedCalls env props
              (dispatchAll env fuel as (componentWillMount init props)).compared) := by
  obtain ⟨c1, c2, c3⟩ := listener_changed_cases env fuel w h
  obtain ⟨r1, hr1⟩ := hooksCall_trace env fuel w
  obtain ⟨r2, hr2⟩ := styleCall_trace env fuel w
  obtain ⟨r3, hr3⟩ := marshalCall_trace env fuel w
  refine ⟨⟨r1, hr1⟩, ⟨r2, hr2⟩, ⟨r3, hr3⟩, c1, c2, fun h1 h2 => ⟨c3 h1 h2, r1, r2, r3, ?_⟩,
    fun hm init props as => ?_⟩
  · rw [c3 h1 h2, hr3, hr2, hr1]
  · obtain ⟨-, added, hc, ht⟩ :=
      dispatchAll_grouped env hm fuel as (componentWillMount init props)
    rw [ht, hc]
    simp [componentWillMount]

theorem notifications_in_transition_order_witness :
    (listener demoEnv 3 ((componentWillMount idle mountHooks).committed collecting) =
        marshalCall demoEnv 2 ((componentWillMount idle mountHooks).committed collecting) ∧
        ∃ inHooks inStyle inMarshal,
          (listener demoEnv 3
            ((componentWillMount idle mountHooks).committed collecting)).world.trace =
            [] ++ Event.fireHooks mountHooks collecting idle :: inHooks ++
              Event.styleOnPhaseChange idle collecting :: inStyle ++
              Event.dimensionOnPhaseChange collecting :: inMarshal) ∧
      (dispatchAll demoEnv 2 [Action.other 1, Action.other 2]
          (componentWillMount idle mountHooks)).trace =
        [Event.fireHooks mountHooks collecting idle,
          Event.styleOnPhaseChange idle collecting,
          Event.dimensionOnPhaseChange collecting,
          Event.fireHooks mountHooks dragging collecting,
          Event.styleOnPhaseChange collecting dragging,
          Event.dimensionOnPhaseChange dragging] :=
  ⟨(notifications_in_transition_order demoEnv 2
      ((componentWillMount idle mountHooks).committed collecting) (by decide)).2.2.2.2.2.1
      (by decide) (by decide),
    ((notifications_in_transition_order demoEnv 2
      ((componentWillMount idle mountHooks).committed collecting) (by decide)).2.2.2.2.2.2
      ⟨fun _ _ _ => rfl, fun _ _ => rfl⟩ idle mountHooks
      [Action.other 1, Action.other 2]).trans (by decide)⟩

/-! ## The recorded previous state -/

/-- C10: the listener records the current state before it calls any collaborator.
Every run of the listener first compares the store's state with the recorded
previous state, and every comparison made until it returns, by the nested runs
started from inside `fireHooks`, the style marshal or the dimension marshal, follows
on from the state of this run: the first nested run compares against the current
state of the outer run, and each later one against the state of the run before it.
Hence in every run from the mount, with any collaborators, every notification
compares against the state delivered by the notification before it (the state at
mount for the first), and the recorded previous state is the state delivered
last. -/
theorem each_notification_compares_with_the_one_before (env : Env) (fuel : Nat) :
    (∀ w : World, ∃ rest,
        (listener env (fuel + 1) w).world.compared =
          w.compared ++ (w.previous, w.store.state) :: rest ∧
        chainEnd w.store.state rest = some (listener env (fuel + 1) w).world.previous) ∧
      ∀ (init : State) (props : Hooks) (as : List Action),
        chainEnd init (dispatchAll env fuel as (componentWillMount init props)).compared =
          some (dispatchAll env fuel as (componentWillMount init props)).previous := by
  constructor
  · intro w
    obtain ⟨rest, hr, hc⟩ := listener_recorded_rel chained_rel env fuel w
    exact ⟨rest, by rw [hr]; simp [World.recorded], hc⟩
  · intro init props as
    obtain ⟨rest, hr, hc⟩ := dispatchAll_rel chained_rel env fuel as
      (componentWillMount init props)
    rw [hr]
    simpa [componentWillMount, createStore] using hc

end DragDropContext
